import Mathlib

/-!
Verification of the data-loading and numerics examples of the
pytorch-fundamentals repository, as a shallow embedding in Lean 4.

The embedding covers:
* the sharded multi-worker `TarImageDataset` (one tar file per worker)
  whose `__iter__` raises `ValueError` unless the worker count equals the
  number of tar paths, and otherwise delegates to `tar_image_iterator`;
* the single-tar `TarImageDataset` whose multi-process branch hands worker
  `i` the slice `file_list[i*per_worker : (i+1)*per_worker]` with
  `per_worker = int(len(file_list) / num_workers)`;
* the numerically stable `softmax` against `unstable_softmax`, in exact
  real arithmetic;
* `batch_gather`, `batch_gather_jit` and `batch_gather_vec`.
-/

set_option autoImplicit false

/-- Errors a Python callee can raise in the embedded code.  The sharded
`__iter__` raises `ValueError` explicitly; indexing a list out of range
would raise `IndexError`. -/
inductive PyError where
  | valueError
  | indexError
deriving DecidableEq, Repr

/-- The part of `torch.utils.data.get_worker_info()` the code reads: the
total worker count and this worker's id.  In single-process loading
`get_worker_info()` returns `None`, modelled by `Option WorkerInfo`. -/
structure WorkerInfo where
  num_workers : Nat
  worker_id : Nat
deriving DecidableEq, Repr

/-- The sharded multi-worker dataset: its only state is the list of tar
paths stored by `__init__`. -/
structure TarImageDataset where
  paths : List String
deriving DecidableEq, Repr

/-- What one call to the generator returned by `__iter__` produces when
driven to completion: the items yielded before termination, and the error
it raised, if any. -/
structure IterResult (α : Type) where
  yielded : List α
  error : Option PyError
deriving Repr

/-- Embedding of the sharded `TarImageDataset.__iter__`:

```
worker_info = torch.utils.data.get_worker_info()
if worker_info is None or worker_info.num_workers != len(self.paths):
    raise ValueError("Number of workers doesn't match number of files.")
yield from tar_image_iterator(self.paths[worker_info.worker_id])
```

`tar_image_iterator` is external to the repository and is passed in as the
function `it`.  The method body assigns nothing, so the post-state equals
the input dataset; the embedding returns the post-state explicitly so that
state preservation is an observable fact rather than a convention. -/
def TarImageDataset.iterSharded {α : Type} (it : String → List α)
    (ds : TarImageDataset) (wi : Option WorkerInfo) :
    IterResult α × TarImageDataset :=
  match wi with
  | none => (⟨[], some PyError.valueError⟩, ds)
  | some w =>
    if w.num_workers ≠ ds.paths.length then
      (⟨[], some PyError.valueError⟩, ds)
    else
      match ds.paths[w.worker_id]? with
      | some p => (⟨it p, none⟩, ds)
      | none => (⟨[], some PyError.indexError⟩, ds)

/-- `C1`: in the sharded multi-worker `TarImageDataset`, for every worker
configuration (a worker id below the worker count), `__iter__` completes
without raising exactly when the worker count equals the number of tar
paths, and raises `ValueError` exactly when it does not. -/
theorem iterSharded_valueError_iff_mismatch {α : Type} (it : String → List α)
    (ds : TarImageDataset) (w : WorkerInfo)
    (hid : w.worker_id < w.num_workers) :
    ((ds.iterSharded it (some w)).1.error = none ↔
      w.num_workers = ds.paths.length) ∧
    ((ds.iterSharded it (some w)).1.error = some PyError.valueError ↔
      w.num_workers ≠ ds.paths.length) := by
  by_cases h : w.num_workers = ds.paths.length
  · have hlt : w.worker_id < ds.paths.length := h ▸ hid
    simp [TarImageDataset.iterSharded, h, List.getElem?_eq_getElem hlt]
  · simp [TarImageDataset.iterSharded, h]

/-- Closed instance of `iterSharded_valueError_iff_mismatch` at a concrete
one-worker, one-path configuration. -/
theorem iterSharded_valueError_iff_mismatch_witness :
    (0 : Nat) < 1 ∧
    (((TarImageDataset.mk ["a.tar"]).iterSharded (fun _ => ([] : List Nat))
        (some ⟨1, 0⟩)).1.error = none ↔
      (1 : Nat) = ["a.tar"].length) ∧
    (((TarImageDataset.mk ["a.tar"]).iterSharded (fun _ => ([] : List Nat))
        (some ⟨1, 0⟩)).1.error = some PyError.valueError ↔
      (1 : Nat) ≠ ["a.tar"].length) :=
  ⟨by decide,
   iterSharded_valueError_iff_mismatch (fun _ => ([] : List Nat))
     (TarImageDataset.mk ["a.tar"]) ⟨1, 0⟩ (by decide)⟩

/-- `C2`: under the precondition that the worker count equals the number of
tar paths and the paths are pairwise distinct, worker `i` yields exactly
the items of `tar_image_iterator` on the path at index `i` (and nothing
else), and two distinct worker ids are assigned distinct paths, so no path
is assigned to two workers. -/
theorem iterSharded_disjoint_shards {α : Type} (it : String → List α)
    (ds : TarImageDataset) (hnd : ds.paths.Nodup) (i j : Nat)
    (hi : i < ds.paths.length) (hj : j < ds.paths.length) (hne : i ≠ j) :
    (ds.iterSharded it (some ⟨ds.paths.length, i⟩)).1 =
      ⟨it (ds.paths.getD i ""), none⟩ ∧
    ds.paths.getD i "" ≠ ds.paths.getD j "" := by
  constructor
  · simp [TarImageDataset.iterSharded, List.getElem?_eq_getElem hi,
      List.getD_eq_getElem _ _ hi]
  · rw [List.getD_eq_getElem _ _ hi, List.getD_eq_getElem _ _ hj]
    intro hcontra
    exact hne ((List.Nodup.getElem_inj_iff hnd).mp hcontra)

/-- Closed instance of `iterSharded_disjoint_shards` on a two-path dataset
with workers `0` and `1`. -/
theorem iterSharded_disjoint_shards_witness :
    (["a.tar", "b.tar"] : List String).Nodup ∧
    (0 : Nat) < (["a.tar", "b.tar"] : List String).length ∧
    (1 : Nat) < (["a.tar", "b.tar"] : List String).length ∧
    (0 : Nat) ≠ 1 ∧
    (((TarImageDataset.mk ["a.tar", "b.tar"]).iterSharded
        (fun p => [p]) (some ⟨["a.tar", "b.tar"].length, 0⟩)).1 =
      ⟨[(["a.tar", "b.tar"] : List String).getD 0 ""], none⟩ ∧
    (["a.tar", "b.tar"] : List String).getD 0 "" ≠
      (["a.tar", "b.tar"] : List String).getD 1 "") :=
  ⟨by decide, by decide, by decide, by decide,
   iterSharded_disjoint_shards (fun p => [p])
     (TarImageDataset.mk ["a.tar", "b.tar"]) (by decide) 0 1
     (by decide) (by decide) (by decide)⟩

/-- `C3`: when the worker count equals the number of tar paths, the sharded
`__iter__` delegates entirely to the external iterator: worker `w` yields
exactly the sequence `tar_image_iterator(paths[worker_id])`, in order, with
no error and nothing else. -/
theorem iterSharded_delegates {α : Type} (it : String → List α)
    (ds : TarImageDataset) (w : WorkerInfo)
    (hid : w.worker_id < w.num_workers)
    (heq : w.num_workers = ds.paths.length) :
    (ds.iterSharded it (some w)).1 =
      ⟨it (ds.paths.getD w.worker_id ""), none⟩ := by
  have hlt : w.worker_id < ds.paths.length := heq ▸ hid
  simp [TarImageDataset.iterSharded, heq, List.getElem?_eq_getElem hlt,
    List.getD_eq_getElem _ _ hlt]

/-- Closed instance of `iterSharded_delegates` with two paths and worker
`1` of `2`. -/
theorem iterSharded_delegates_witness :
    (1 : Nat) < 2 ∧ (2 : Nat) = (["a.tar", "b.tar"] : List String).length ∧
    ((TarImageDataset.mk ["a.tar", "b.tar"]).iterSharded
        (fun p => [p, p]) (some ⟨2, 1⟩)).1 =
      ⟨[(["a.tar", "b.tar"] : List String).getD 1 "",
        (["a.tar", "b.tar"] : List String).getD 1 ""], none⟩ :=
  ⟨by decide, by decide,
   iterSharded_delegates (fun p => [p, p])
     (TarImageDataset.mk ["a.tar", "b.tar"]) ⟨2, 1⟩ (by decide) (by decide)⟩

/-- `C4`: whenever the sharded `__iter__` raises `ValueError`, the failure
is atomic: no item has been yielded before the error, and the stored list
of paths — indeed the whole dataset state — is unchanged by the failed
iteration. -/
theorem iterSharded_failure_atomic {α : Type} (it : String → List α)
    (ds : TarImageDataset) (wi : Option WorkerInfo)
    (herr : (ds.iterSharded it wi).1.error = some PyError.valueError) :
    (ds.iterSharded it wi).1.yielded = [] ∧
    ((ds.iterSharded it wi).2 = ds ∧ (ds.iterSharded it wi).2.paths = ds.paths) := by
  match wi with
  | none => exact ⟨rfl, rfl, rfl⟩
  | some w =>
    by_cases h : w.num_workers = ds.paths.length
    · match hp : ds.paths[w.worker_id]? with
      | some p =>
        exfalso
        simp [TarImageDataset.iterSharded, h, hp] at herr
      | none => simp [TarImageDataset.iterSharded, h, hp]
    · simp [TarImageDataset.iterSharded, h]

/-- Closed instance of `iterSharded_failure_atomic` at a mismatched
configuration: two workers and one path. -/
theorem iterSharded_failure_atomic_witness :
    ((TarImageDataset.mk ["a.tar"]).iterSharded (fun _ => ([] : List Nat))
        (some ⟨2, 0⟩)).1.error = some PyError.valueError ∧
    (((TarImageDataset.mk ["a.tar"]).iterSharded (fun _ => ([] : List Nat))
        (some ⟨2, 0⟩)).1.yielded = [] ∧
    (((TarImageDataset.mk ["a.tar"]).iterSharded (fun _ => ([] : List Nat))
        (some ⟨2, 0⟩)).2 = TarImageDataset.mk ["a.tar"] ∧
     ((TarImageDataset.mk ["a.tar"]).iterSharded (fun _ => ([] : List Nat))
        (some ⟨2, 0⟩)).2.paths = (TarImageDataset.mk ["a.tar"]).paths)) :=
  ⟨rfl,
   iterSharded_failure_atomic (fun _ => ([] : List Nat))
     (TarImageDataset.mk ["a.tar"]) (some ⟨2, 0⟩) rfl⟩

/-- Embedding of the multi-process branch of the single-tar
`TarImageDataset.__iter__`:

```
per_worker = int(len(self.file_list) / worker_info.num_workers)
worker_id = worker_info.id
start = worker_id * per_worker
end = (worker_id + 1) * per_worker
return iter(self.file_list[start:end])
```

A Python slice `l[start:end]` (with `0 ≤ start ≤ end`) is
`(l.take end).drop start`, and `int(a / b)` on the nonnegative integers
involved is floor division, i.e. `Nat` division. -/
def singleTarWorkerSlice (file_list : List String)
    (num_workers worker_id : Nat) : List String :=
  let per_worker := file_list.length / num_workers
  let start := worker_id * per_worker
  let stop := (worker_id + 1) * per_worker
  (file_list.take stop).drop start

/-- A worker's slice in `drop`/`take` form: the `per_worker` files starting
at index `worker_id * per_worker`. -/
theorem singleTarWorkerSlice_eq_drop_take (fl : List String) (W i : Nat) :
    singleTarWorkerSlice fl W i =
      (fl.drop (i * (fl.length / W))).take (fl.length / W) := by
  unfold singleTarWorkerSlice
  rw [List.drop_take]
  have hx : ∀ p : Nat, (i + 1) * p - i * p = p := fun p => by
    rw [add_one_mul]; omega
  rw [hx]

/-- Concatenating the segments `[i*p, (i+1)*p)` of a list for
`i = 0, …, n-1` gives its first `n*p` elements. -/
theorem flatten_segments (fl : List String) (p n : Nat) :
    ((List.range n).map (fun i => (fl.drop (i * p)).take p)).flatten =
      fl.take (n * p) := by
  induction n with
  | zero => simp
  | succ m ih =>
    rw [List.range_succ, List.map_append, List.flatten_append, ih,
      List.map_singleton, List.flatten_singleton, add_one_mul, List.take_add]

/-- The slices of workers `0, …, W-1`, concatenated in order, form exactly
the first `W * (F / W)` files of the list. -/
theorem singleTarWorkerSlice_flatten (fl : List String) (W : Nat) :
    ((List.range W).map (singleTarWorkerSlice fl W)).flatten =
      fl.take (W * (fl.length / W)) := by
  rw [List.map_congr_left fun i _ => singleTarWorkerSlice_eq_drop_take fl W i,
    flatten_segments]

/-- Slices of two workers with `i < j` share no file when the file names
are distinct. -/
theorem singleTarWorkerSlice_disjoint_of_lt (fl : List String) (W : Nat)
    (hnd : fl.Nodup) (i j : Nat) (hij : i < j) :
    (singleTarWorkerSlice fl W i).Disjoint (singleTarWorkerSlice fl W j) := by
  intro a ha hb
  rw [singleTarWorkerSlice_eq_drop_take] at ha hb
  have h1 : a ∈ fl.take ((i + 1) * (fl.length / W)) := by
    rw [add_one_mul, List.take_add]
    exact List.mem_append.mpr (Or.inr ha)
  have h2 : a ∈ fl.drop (j * (fl.length / W)) := List.take_subset _ _ hb
  have hle : (i + 1) * (fl.length / W) ≤ j * (fl.length / W) :=
    mul_le_mul_right' hij _
  exact List.disjoint_take_drop hnd hle h1 h2

/-- `C7`: in the multi-process branch of the single-tar `TarImageDataset`
with `F` files and `W ≥ 1` workers, worker `i` receives exactly the slice
from `i * (F / W)` (inclusive) to `(i+1) * (F / W)` (exclusive); for
distinct file names the slices of distinct workers are disjoint; the
concatenation of the `W` slices is the whole file list exactly when `W`
divides `F`; and otherwise what the slices miss is the final segment of
`F % W` files, which is assigned to no worker. -/
theorem singleTar_shard_partition (fl : List String) (W : Nat)
    (hW : 0 < W) :
    (∀ i, singleTarWorkerSlice fl W i =
        (fl.drop (i * (fl.length / W))).take (fl.length / W)) ∧
    (fl.Nodup → ∀ i j, i ≠ j →
        (singleTarWorkerSlice fl W i).Disjoint (singleTarWorkerSlice fl W j)) ∧
    (((List.range W).map (singleTarWorkerSlice fl W)).flatten = fl ↔
      W ∣ fl.length) ∧
    ((List.range W).map (singleTarWorkerSlice fl W)).flatten ++
        fl.drop (W * (fl.length / W)) = fl ∧
    (fl.drop (W * (fl.length / W))).length = fl.length % W := by
  have hWle : W * (fl.length / W) ≤ fl.length := Nat.mul_div_le fl.length W
  refine ⟨singleTarWorkerSlice_eq_drop_take fl W, ?_, ?_, ?_, ?_⟩
  · intro hnd i j hne
    rcases Nat.lt_or_ge i j with h | h
    · exact singleTarWorkerSlice_disjoint_of_lt fl W hnd i j h
    · have hj : j < i := Nat.lt_of_le_of_ne h (Ne.symm hne)
      exact (singleTarWorkerSlice_disjoint_of_lt fl W hnd j i hj).symm
  · rw [singleTarWorkerSlice_flatten]
    constructor
    · intro h
      have hlen := congrArg List.length h
      rw [List.length_take] at hlen
      have hge : fl.length ≤ W * (fl.length / W) := min_eq_right_iff.mp hlen
      exact ⟨fl.length / W, (Nat.le_antisymm hWle hge).symm⟩
    · intro h
      rw [Nat.mul_div_cancel' h, List.take_length]
  · rw [singleTarWorkerSlice_flatten, List.take_append_drop]
  · rw [List.length_drop, Nat.mod_def]

/-- Closed instance of `singleTar_shard_partition` with five files and two
workers: each worker gets two files and the fifth file is dropped. -/
theorem singleTar_shard_partition_witness :
    (0 : Nat) < 2 ∧
    ((∀ i, singleTarWorkerSlice ["f1", "f2", "f3", "f4", "f5"] 2 i =
        ((["f1", "f2", "f3", "f4", "f5"] : List String).drop
            (i * ((["f1", "f2", "f3", "f4", "f5"] : List String).length / 2))).take
          ((["f1", "f2", "f3", "f4", "f5"] : List String).length / 2)) ∧
    ((["f1", "f2", "f3", "f4", "f5"] : List String).Nodup → ∀ i j, i ≠ j →
        (singleTarWorkerSlice ["f1", "f2", "f3", "f4", "f5"] 2 i).Disjoint
          (singleTarWorkerSlice ["f1", "f2", "f3", "f4", "f5"] 2 j)) ∧
    (((List.range 2).map
        (singleTarWorkerSlice ["f1", "f2", "f3", "f4", "f5"] 2)).flatten =
        ["f1", "f2", "f3", "f4", "f5"] ↔
      (2 : Nat) ∣ (["f1", "f2", "f3", "f4", "f5"] : List String).length) ∧
    ((List.range 2).map
        (singleTarWorkerSlice ["f1", "f2", "f3", "f4", "f5"] 2)).flatten ++
        (["f1", "f2", "f3", "f4", "f5"] : List String).drop
          (2 * ((["f1", "f2", "f3", "f4", "f5"] : List String).length / 2)) =
        ["f1", "f2", "f3", "f4", "f5"] ∧
    ((["f1", "f2", "f3", "f4", "f5"] : List String).drop
        (2 * ((["f1", "f2", "f3", "f4", "f5"] : List String).length / 2))).length =
      (["f1", "f2", "f3", "f4", "f5"] : List String).length % 2) :=
  ⟨by decide, singleTar_shard_partition ["f1", "f2", "f3", "f4", "f5"] 2 (by decide)⟩

/-- Exact-real model of `torch.max(logits)`, the largest element of the
tensor.  `torch.max` errors on an empty tensor, so the `[]` branch is
unreachable under the claims' nonempty precondition; its value is
irrelevant to every theorem below. -/
noncomputable def listMax : List ℝ → ℝ
  | [] => 0
  | x :: xs => xs.foldl max x

/-- Embedding of the notebook's numerically unstable softmax, in exact
real arithmetic:

```
def unstable_softmax(logits):
    exp = torch.exp(logits)
    return exp / torch.sum(exp)
```
-/
noncomputable def unstable_softmax (logits : List ℝ) : List ℝ :=
  let exp := logits.map Real.exp
  exp.map fun e => e / exp.sum

/-- Embedding of the notebook's numerically stable softmax, in exact real
arithmetic:

```
def softmax(logits):
    exp = torch.exp(logits - torch.max(logits))
    return exp / torch.sum(exp)
```
-/
noncomputable def softmax (logits : List ℝ) : List ℝ :=
  let exp := (logits.map fun x => x - listMax logits).map Real.exp
  exp.map fun e => e / exp.sum

/-- Pulling a constant factor out of a mapped sum. -/
theorem sum_map_mul_const (l : List ℝ) (f : ℝ → ℝ) (c : ℝ) :
    (l.map fun x => f x * c).sum = (l.map f).sum * c := by
  induction l with
  | nil => simp
  | cons a t ih => simp [ih, add_mul]

/-- Both softmax variants are the map `x ↦ exp x / Σ exp`; for the stable
one the shift by `torch.max(logits)` cancels between numerator and
denominator. -/
theorem softmax_eq_exp_div_sum (logits : List ℝ) :
    softmax logits =
      (logits.map fun x => Real.exp x / (logits.map Real.exp).sum) ∧
    unstable_softmax logits =
      (logits.map fun x => Real.exp x / (logits.map Real.exp).sum) := by
  constructor
  · unfold softmax
    simp only [List.map_map]
    have hcomp : (Real.exp ∘ fun x => x - listMax logits) =
        fun x => Real.exp x * Real.exp (-listMax logits) := by
      funext x
      rw [Function.comp_apply, Real.exp_sub, Real.exp_neg, div_eq_mul_inv]
    rw [hcomp, sum_map_mul_const logits Real.exp (Real.exp (-listMax logits))]
    refine List.map_congr_left fun x _ => ?_
    rw [Function.comp_apply]
    exact mul_div_mul_right (Real.exp x) (logits.map Real.exp).sum
      (Real.exp_ne_zero (-listMax logits))
  · unfold unstable_softmax
    rw [List.map_map]
    rfl

/-- The sum of the exponentials of a nonempty list is positive. -/
theorem sum_exps_pos (logits : List ℝ) (h : logits ≠ []) :
    0 < (logits.map Real.exp).sum := by
  refine List.sum_pos (logits.map Real.exp) ?_ (by simpa using h)
  intro a ha
  rcases List.mem_map.mp ha with ⟨x, _, rfl⟩
  exact Real.exp_pos x

/-- `C5`: on every nonempty logit vector, in exact real arithmetic, the
numerically stable `softmax` returns exactly the same vector as
`unstable_softmax`, and that vector has positive entries summing to `1`. -/
theorem softmax_refines_unstable (logits : List ℝ) (h : logits ≠ []) :
    softmax logits = unstable_softmax logits ∧
    (∀ y ∈ softmax logits, 0 < y) ∧
    (softmax logits).sum = 1 := by
  obtain ⟨hs, hu⟩ := softmax_eq_exp_div_sum logits
  have hS : 0 < (logits.map Real.exp).sum := sum_exps_pos logits h
  refine ⟨hs.trans hu.symm, ?_, ?_⟩
  · intro y hy
    rw [hs] at hy
    rcases List.mem_map.mp hy with ⟨x, _, rfl⟩
    exact div_pos (Real.exp_pos x) hS
  · rw [hs]
    have hdiv : (logits.map fun x => Real.exp x / (logits.map Real.exp).sum) =
        logits.map fun x =>
          Real.exp x * ((logits.map Real.exp).sum)⁻¹ := by
      refine List.map_congr_left fun x _ => div_eq_mul_inv _ _
    rw [hdiv, sum_map_mul_const, mul_inv_cancel₀ (ne_of_gt hS)]

/-- Closed instance of `softmax_refines_unstable` at the notebook's test
vector `[1000., 0.]`. -/
theorem softmax_refines_unstable_witness :
    ([1000, 0] : List ℝ) ≠ [] ∧
    (softmax [1000, 0] = unstable_softmax [1000, 0] ∧
     (∀ y ∈ softmax [1000, 0], 0 < y) ∧
     (softmax ([1000, 0] : List ℝ)).sum = 1) :=
  ⟨by simp, softmax_refines_unstable [1000, 0] (by simp)⟩

/-- Embedding of the loop-based gather, with a `(B, N)` tensor as a list
of rows and a `(B, K)` integer index tensor as a list of index rows:

```
def batch_gather(tensor, indices):
    output = []
    for i in range(tensor.size(0)):
        output += [tensor[i][indices[i]]]
    return torch.stack(output)
```

`tensor[i][indices[i]]` selects, for each entry `j` of `indices[i]`, the
element `tensor[i][j]`. -/
def batch_gather (tensor : List (List Int)) (indices : List (List Nat)) :
    List (List Int) :=
  (List.range tensor.length).map fun i =>
    (indices.getD i []).map fun j => (tensor.getD i []).getD j 0

/-- Embedding of `batch_gather_jit`, the same loop under
`@torch.jit.script`; its body is textually identical to `batch_gather`. -/
def batch_gather_jit (tensor : List (List Int)) (indices : List (List Nat)) :
    List (List Int) :=
  (List.range tensor.length).map fun i =>
    (indices.getD i []).map fun j => (tensor.getD i []).getD j 0

/-- Embedding of the vectorized gather:

```
def batch_gather_vec(tensor, indices):
    shape = list(tensor.shape)
    flat_first = torch.reshape(
        tensor, [shape[0] * shape[1]] + shape[2:])
    offset = torch.reshape(
        torch.arange(shape[0]).cuda() * shape[1],
        [shape[0]] + [1] * (len(indices.shape) - 1))
    output = flat_first[indices + offset]
    return output
```

Flattening the first two dimensions is `List.flatten`; the reshaped
`offset` broadcasts `i * shape[1]` over row `i` of `indices`; indexing
`flat_first` with the shifted indices maps each shifted entry to the
corresponding element of the flattened tensor. -/
def batch_gather_vec (tensor : List (List Int)) (indices : List (List Nat)) :
    List (List Int) :=
  let shape0 := tensor.length
  let shape1 := (tensor.headD []).length
  let flat_first := tensor.flatten
  let offset := (List.range shape0).map fun i => i * shape1
  (List.zipWith (fun ir off => ir.map fun j => j + off) indices offset).map
    fun row => row.map fun k => flat_first.getD k 0

/-- Indexing the flattening of a list of length-`N` rows at `i * N + j`
with `j < N` reads row `i` at column `j`. -/
theorem getD_flatten_segment (L : List (List Int)) (N : Nat)
    (h : ∀ l ∈ L, l.length = N) (i j : Nat) (hj : j < N) :
    L.flatten.getD (i * N + j) 0 = (L.getD i []).getD j 0 := by
  induction L generalizing i with
  | nil => simp [List.getD]
  | cons a t ih =>
    have ha : a.length = N := h a (List.mem_cons_self a t)
    cases i with
    | zero =>
      rw [Nat.zero_mul, Nat.zero_add, List.flatten_cons,
        List.getD_append a t.flatten 0 j (ha ▸ hj)]
      rfl
    | succ k =>
      have hidx : (k + 1) * N + j = k * N + j + a.length := by
        rw [ha, add_one_mul]; omega
      rw [List.flatten_cons, hidx,
        List.getD_append_right a t.flatten 0 (k * N + j + a.length)
          (Nat.le_add_left _ _), Nat.add_sub_cancel, List.getD_cons_succ]
      exact ih (fun l hl => h l (List.mem_cons_of_mem a hl)) k

/-- The vectorized gather agrees with the loop, given uniform row length
`N`, matching batch dimensions, and in-range indices. -/
theorem batch_gather_vec_eq (tensor : List (List Int))
    (indices : List (List Nat)) (N : Nat)
    (hrows : ∀ row ∈ tensor, row.length = N)
    (hN : (tensor.headD []).length = N)
    (hlen : indices.length = tensor.length)
    (hidx : ∀ ir ∈ indices, ∀ j ∈ ir, j < N) :
    batch_gather_vec tensor indices = batch_gather tensor indices := by
  apply List.ext_getElem
  · simp [batch_gather_vec, batch_gather, List.length_zipWith, hlen]
  · intro i h1 h2
    have hiT : i < tensor.length := by
      simpa [batch_gather] using h2
    have hiI : i < indices.length := by rw [hlen]; exact hiT
    simp only [batch_gather_vec, batch_gather, List.getElem_map,
      List.getElem_zipWith, List.getElem_range, List.map_map]
    rw [List.getD_eq_getElem indices [] hiI]
    refine List.map_congr_left fun j hj => ?_
    have hjN : j < N := hidx (indices[i]) (List.getElem_mem hiI) j hj
    rw [Function.comp_apply, hN, Nat.add_comm,
      getD_flatten_segment tensor N hrows i j hjN]

/-- `C6`: the vectorized `batch_gather_vec` computes the same function as
the loop-based `batch_gather` on every `(B, N)` tensor and every `(B, K)`
index tensor whose entries lie in `[0, N)`, and the jit-scripted
`batch_gather_jit` is the same function as `batch_gather` outright. -/
theorem batch_gather_refinements (tensor : List (List Int))
    (indices : List (List Nat)) (N : Nat)
    (hrows : ∀ row ∈ tensor, row.length = N)
    (hlen : indices.length = tensor.length)
    (hidx : ∀ ir ∈ indices, ∀ j ∈ ir, j < N) :
    batch_gather_vec tensor indices = batch_gather tensor indices ∧
    batch_gather_jit = batch_gather := by
  refine ⟨?_, rfl⟩
  cases tensor with
  | nil =>
    have h0 : indices = [] := List.length_eq_zero.mp (by simpa using hlen)
    subst h0
    rfl
  | cons t0 ts =>
    exact batch_gather_vec_eq (t0 :: ts) indices N hrows
      (hrows t0 (List.mem_cons_self t0 ts)) hlen hidx

/-- Closed instance of `batch_gather_refinements` on the `3×4` example
tensor of the notebook with index rows `[0, 2]`, `[1, 3]`, `[2, 0]`. -/
theorem batch_gather_refinements_witness :
    (∀ row ∈ [[1, 2, 3, 4], [5, 6, 7, 8], [9, 10, 11, 12]], row.length = 4) ∧
    ([[0, 2], [1, 3], [2, 0]] : List (List Nat)).length =
      ([[1, 2, 3, 4], [5, 6, 7, 8], [9, 10, 11, 12]] : List (List Int)).length ∧
    (∀ ir ∈ ([[0, 2], [1, 3], [2, 0]] : List (List Nat)), ∀ j ∈ ir, j < 4) ∧
    (batch_gather_vec [[1, 2, 3, 4], [5, 6, 7, 8], [9, 10, 11, 12]]
        [[0, 2], [1, 3], [2, 0]] =
      batch_gather [[1, 2, 3, 4], [5, 6, 7, 8], [9, 10, 11, 12]]
        [[0, 2], [1, 3], [2, 0]] ∧
    batch_gather_jit = batch_gather) :=
  ⟨by decide, by decide, by decide,
   batch_gather_refinements [[1, 2, 3, 4], [5, 6, 7, 8], [9, 10, 11, 12]]
     [[0, 2], [1, 3], [2, 0]] 4 (by decide) (by decide) (by decide)⟩
